import Mathlib

/-!
Verification of the OpenSlide Leica (.scn) vendor driver
(`openslide-vendor-leica.c`) and the file-size helper
(`openslide-file.c`), via a shallow embedding in Lean.

Machine doubles (`clicks_per_pixel`, the resolution-similarity
computation) are modelled as rationals; `int64_t` values as `Int`.
External collaborators (libtiff directory initialization, compression
probing, associated-image registration, grid painting, libc seek/tell)
are modelled as boolean oracles supplied as parameters.
-/

namespace Leica

/-- The string constant `LEICA_VALUE_BRIGHTFIELD`. -/
def LEICA_VALUE_BRIGHTFIELD : String := "brightfield"

/-- The z-plane attribute value accepted by the dimension filter. -/
def Z_PLANE_ZERO : String := "0"

/-- `struct dimension`: one pyramid level of one acquired image.
`dir` is the TIFF directory index; `clicks_per_pixel` is the C double
`image->clicks_across / dimension->width`, modelled as a rational. -/
structure Dimension where
  dir : Int
  width : Int
  height : Int
  clicks_per_pixel : ℚ
deriving Repr, DecidableEq

/-- `struct image` (the fields used by level synthesis).
`isMacroImage` embeds the C field `is_macro`.
Absent XPath strings are `none`. -/
structure Image where
  illumination_source : Option String
  objective : Option String
  isMacroImage : Bool
  clicks_across : Int
  clicks_down : Int
  clicks_offset_x : Int
  clicks_offset_y : Int
  dimensions : List Dimension
deriving Repr, DecidableEq

/-- `struct collection` (the fields used by level synthesis). -/
structure Collection where
  clicks_across : Int
  clicks_down : Int
  images : List Image
deriving Repr, DecidableEq

/-- `dimension_compare`: qsort-style comparator ordering dimensions by
descending width. -/
def dimension_compare (a b : Dimension) : Int :=
  if a.width > b.width then -1
  else if a.width = b.width then 0
  else 1

/-- Stable insertion of a dimension into an already-sorted list under
`dimension_compare`; the inserted element goes before the first element
it does not strictly follow, so earlier input elements stay first on
ties.  `g_ptr_array_sort` is documented to be a stable sort. -/
def insertDim (d : Dimension) : List Dimension → List Dimension
  | [] => [d]
  | e :: es => if dimension_compare d e ≤ 0 then d :: e :: es else e :: insertDim d es

/-- The stable sort performed by `g_ptr_array_sort(image->dimensions,
dimension_compare)`. -/
def sortDimensions : List Dimension → List Dimension
  | [] => []
  | d :: ds => insertDim d (sortDimensions ds)

/-- One raw `<dimension>` manifest element before filtering/sorting. -/
structure RawDimension where
  z : Option String
  ifd : Int
  width : Int
  height : Int
deriving Repr, DecidableEq

/-- The z-plane filter: a dimension is kept when the `z` attribute is
absent or equal to `"0"` (the C code skips when `z && strcmp(z, "0")`). -/
def zPlaneKeep (z : Option String) : Bool :=
  match z with
  | none => true
  | some s => s = Z_PLANE_ZERO

/-- Construction of a `struct dimension` from a raw manifest element:
`clicks_per_pixel = (double) image->clicks_across / dimension->width`. -/
def mkDimension (image_clicks_across : Int) (r : RawDimension) : Dimension :=
  { dir := r.ifd
    width := r.width
    height := r.height
    clicks_per_pixel := (image_clicks_across : ℚ) / (r.width : ℚ) }

/-- The dimension-list processing of `parse_xml_description`: filter to
z-plane 0, build `struct dimension`s in manifest order, then sort by
descending width. -/
def parseDimensions (image_clicks_across : Int) (rs : List RawDimension) :
    List Dimension :=
  sortDimensions ((rs.filter (fun r => zPlaneKeep r.z)).map (mkDimension image_clicks_across))

/-- The `image` construction of `parse_xml_description`: view geometry,
optional metadata strings, the derived `is_macro` flag, and the
filtered/sorted dimensions. -/
def parseImage (collection_clicks_across collection_clicks_down : Int)
    (illumination_source objective : Option String)
    (clicks_across clicks_down clicks_offset_x clicks_offset_y : Int)
    (raw_dimensions : List RawDimension) : Image :=
  { illumination_source := illumination_source
    objective := objective
    isMacroImage :=
      clicks_offset_x = 0 ∧ clicks_offset_y = 0 ∧
      clicks_across = collection_clicks_across ∧
      clicks_down = collection_clicks_down
    clicks_across := clicks_across
    clicks_down := clicks_down
    clicks_offset_x := clicks_offset_x
    clicks_offset_y := clicks_offset_y
    dimensions := parseDimensions clicks_across raw_dimensions }

/-- The accumulator loop of `should_use_legacy_quickhash`: count macro
and brightfield main images, returning false immediately on a non-macro
image whose illumination source is missing or not `"brightfield"`. -/
def legacyLoop : List Image → Nat → Nat → Bool
  | [], mains, macros => mains = 1 ∧ macros ≤ 1
  | i :: rest, mains, macros =>
    if i.isMacroImage then legacyLoop rest mains (macros + 1)
    else if i.illumination_source = some LEICA_VALUE_BRIGHTFIELD then
      legacyLoop rest (mains + 1) macros
    else false

/-- `should_use_legacy_quickhash`. -/
def should_use_legacy_quickhash (c : Collection) : Bool :=
  legacyLoop c.images 0 0

/-- An image surviving the main-image loop: not a macro and with
illumination source exactly `"brightfield"`. -/
def isMainImage (i : Image) : Bool :=
  (! i.isMacroImage) && (i.illumination_source = some LEICA_VALUE_BRIGHTFIELD)

/-- All surviving main images, in collection order. -/
def mainImages (c : Collection) : List Image :=
  c.images.filter isMainImage

/-- The first surviving main image (`first_main_image`). -/
def firstMainImage (c : Collection) : Option Image :=
  c.images.find? isMainImage

/-- A brightfield macro image as accepted by the macro loop. -/
def isBrightfieldMacroImage (i : Image) : Bool :=
  i.isMacroImage && (i.illumination_source = some LEICA_VALUE_BRIGHTFIELD)

/-- The first brightfield macro image in collection order. -/
def firstBrightfieldMacroImage (c : Collection) : Option Image :=
  c.images.find? isBrightfieldMacroImage

/-- The click densities of an image's dimensions, in pyramid order. -/
def cppsOf (i : Image) : List ℚ :=
  i.dimensions.map (fun d => d.clicks_per_pixel)

/-- Pointwise minimization of a click-density list over the dimensions
of a list of images, as performed by the repeated `MIN` of the
main-image loop. -/
def cppFold (gs : List Image) (init : List ℚ) : List ℚ :=
  gs.foldl (fun acc g => List.zipWith min acc (cppsOf g)) init

/-- Boolean oracles for the TIFF collaborator calls made by
`create_levels_from_collection`, indexed by TIFF directory. -/
structure TiffOracle where
  levelInitOk : Int → Bool
  compressionReadable : Int → Bool
  codecConfigured : Int → Bool
  assocImageOk : Int → Bool

/-- The oracle on which every collaborator call succeeds. -/
def allOkTiff : TiffOracle :=
  { levelInitOk := fun _ => true
    compressionReadable := fun _ => true
    codecConfigured := fun _ => true
    assocImageOk := fun _ => true }

/-- The distinct error exits of `create_levels_from_collection`
(`assertionFailed` stands for the `g_assert` / out-of-bounds accesses,
which cannot fire on data the function itself admits). -/
inductive LeicaError where
  | dissimilarMainImages
  | inconsistentResolutions
  | tiffInitFailed
  | cantReadCompression
  | unsupportedCompression
  | assertionFailed
  | noMainImage
  | multipleMacroImages
  | assocImageFailed
  | noQuickhashDir
deriving Repr, DecidableEq

/-- `struct area` (the fields claims speak about): the TIFF directory
of its dimension and the owning image's click offsets. -/
structure Area where
  dir : Int
  clicks_offset_x : Int
  clicks_offset_y : Int
deriving Repr, DecidableEq

/-- `struct level` during the main-image loop, before sizes are set. -/
structure SynthLevel where
  clicks_per_pixel : ℚ
  areas : List Area
deriving Repr, DecidableEq

/-- `struct level` after level sizes have been computed. -/
structure FinalLevel where
  w : Int
  h : Int
  clicks_per_pixel : ℚ
  areas : List Area
deriving Repr, DecidableEq

/-- The resolution-similarity expression of the synthesizer:
`1 - fabs(cpp - first_cpp) / first_cpp`. -/
def resolutionSimilarity (cpp first_cpp : ℚ) : ℚ :=
  1 - |cpp - first_cpp| / first_cpp

/-- The per-dimension collaborator checks shared by every area:
TIFF directory initialization, reading the compression tag, and codec
availability, in the order the C code performs them. -/
def areaChecks (tiff : TiffOracle) (d : Dimension) : Except LeicaError Unit :=
  if ! tiff.levelInitOk d.dir then .error .tiffInitFailed
  else if ! tiff.compressionReadable d.dir then .error .cantReadCompression
  else if ! tiff.codecConfigured d.dir then .error .unsupportedCompression
  else .ok ()

/-- The dimension loop for `first_main_image`: one fresh level per
dimension, with the dimension's `clicks_per_pixel` and a single area
carrying the image's offsets. -/
def processFirstDims (tiff : TiffOracle) (img : Image) :
    List Dimension → Except LeicaError (List SynthLevel)
  | [] => .ok []
  | d :: ds =>
    match areaChecks tiff d with
    | .error e => .error e
    | .ok _ =>
      match processFirstDims tiff img ds with
      | .error e => .error e
      | .ok rest =>
        .ok ({ clicks_per_pixel := d.clicks_per_pixel
               areas := [{ dir := d.dir
                           clicks_offset_x := img.clicks_offset_x
                           clicks_offset_y := img.clicks_offset_y }] } :: rest)

/-- The dimension loop for a subsequent main image: walk this image's
dimensions, the first image's dimensions and the existing levels in
lockstep; minimize `clicks_per_pixel`, then apply the resolution
similarity check, then run the collaborator checks and append an area.
Exhausting the level list first is the `g_assert` failure. -/
def processRestDims (tiff : TiffOracle) (img : Image) :
    List Dimension → List Dimension → List SynthLevel →
    Except LeicaError (List SynthLevel)
  | [], _, ls => .ok ls
  | _ :: _, _, [] => .error .assertionFailed
  | _ :: _, [], _ :: _ => .error .assertionFailed
  | d :: ds, fd :: fds, l :: ls =>
    let minimized := min l.clicks_per_pixel d.clicks_per_pixel
    if resolutionSimilarity d.clicks_per_pixel fd.clicks_per_pixel < (49 / 50 : ℚ) then
      .error .inconsistentResolutions
    else
      match areaChecks tiff d with
      | .error e => .error e
      | .ok _ =>
        match processRestDims tiff img ds fds ls with
        | .error e => .error e
        | .ok rest =>
          .ok ({ clicks_per_pixel := minimized
                 areas := l.areas ++ [{ dir := d.dir
                                        clicks_offset_x := img.clicks_offset_x
                                        clicks_offset_y := img.clicks_offset_y }] } :: rest)

/-- The dissimilar-main-images gate: exact equality of illumination
source and objective with `first_main_image`, and equal dimension
counts. -/
def similarTo (f i : Image) : Bool :=
  (i.illumination_source = f.illumination_source) &&
  (i.objective = f.objective) &&
  (i.dimensions.length = f.dimensions.length)

/-- The main-image loop of `create_levels_from_collection`.  State:
the `first_main_image` found so far, the level list, and
`quickhash_dir`.  In legacy mode the quickhash directory is taken from
the last (smallest-width) dimension of the first main image. -/
def mainLoop (tiff : TiffOracle) (legacy : Bool) :
    List Image → Option Image → List SynthLevel → Int →
    Except LeicaError (Option Image × List SynthLevel × Int)
  | [], first, ls, q => .ok (first, ls, q)
  | img :: rest, first, ls, q =>
    if isMainImage img then
      match first with
      | none =>
        match processFirstDims tiff img img.dimensions with
        | .error e => .error e
        | .ok ls1 =>
          if legacy then
            match img.dimensions.getLast? with
            | some d => mainLoop tiff legacy rest (some img) (ls ++ ls1) d.dir
            | none => .error .assertionFailed
          else
            mainLoop tiff legacy rest (some img) (ls ++ ls1) q
      | some f =>
        if ! similarTo f img then .error .dissimilarMainImages
        else
          match processRestDims tiff img img.dimensions f.dimensions ls with
          | .error e => .error e
          | .ok ls1 => mainLoop tiff legacy rest (some f) ls1 q
    else
      mainLoop tiff legacy rest first ls q

/-- The macro-image loop: skip non-macro and non-brightfield images,
reject a second brightfield macro, register the largest dimension as
the associated image, and in non-legacy mode take `quickhash_dir` from
the macro's smallest dimension. -/
def processMacroImages (tiff : TiffOracle) (legacy : Bool) :
    List Image → Bool → Int → Except LeicaError Int
  | [], _, q => .ok q
  | img :: rest, haveMacroImg, q =>
    if isBrightfieldMacroImage img then
      if haveMacroImg then .error .multipleMacroImages
      else
        match img.dimensions with
        | [] => .error .assertionFailed
        | d0 :: tl =>
          if ! tiff.assocImageOk d0.dir then .error .assocImageFailed
          else
            processMacroImages tiff legacy rest true
              (if legacy then q else ((d0 :: tl).getLast (by simp)).dir)
    else processMacroImages tiff legacy rest haveMacroImg q

/-- Executable ceiling on the rationals: `ceil x = -floor (-x)`, with
the floor of a reduced fraction given by integer division of numerator
by denominator. -/
def ceilq (x : ℚ) : Int :=
  -((-x).num / ((-x).den : Int))

/-- Computation of the pyramid sizes once click densities are final:
`w = ceil(clicks_across / clicks_per_pixel)` and likewise for `h`. -/
def finalizeLevel (c : Collection) (l : SynthLevel) : FinalLevel :=
  { w := ceilq ((c.clicks_across : ℚ) / l.clicks_per_pixel)
    h := ceilq ((c.clicks_down : ℚ) / l.clicks_per_pixel)
    clicks_per_pixel := l.clicks_per_pixel
    areas := l.areas }

/-- `create_levels_from_collection`: quickhash-mode selection, the
main-image loop, the no-main-image check, level-size computation, the
macro loop, and the final quickhash-directory check. -/
def create_levels_from_collection (tiff : TiffOracle) (c : Collection) :
    Except LeicaError (List FinalLevel × Int) :=
  match mainLoop tiff (should_use_legacy_quickhash c) c.images none [] (-1) with
  | .error e => .error e
  | .ok (first, ls, q) =>
    match first with
    | none => .error .noMainImage
    | some _ =>
      match processMacroImages tiff (should_use_legacy_quickhash c) c.images false q with
      | .error e => .error e
      | .ok q1 =>
        if q1 = -1 then .error .noQuickhashDir
        else .ok (ls.map (finalizeLevel c), q1)

/-- Boolean oracles for the collaborator calls made by `paint_region`:
`TIFFSetDirectory` success per directory, and `_openslide_grid_paint_region`
success per area. -/
structure PaintOracle where
  setDirOk : Int → Bool
  gridPaintOk : Area → Bool

/-- The distinct outcomes of `paint_region`.  `cantSetDirectory` is the
`BadData` error raised when `TIFFSetDirectory` fails; `gridPaintFailed`
propagates a grid-painting failure; `acquireFailed` is the early return
when no TIFF handle could be obtained from the pool. -/
inductive PaintOutcome where
  | success
  | cantSetDirectory
  | gridPaintFailed
  | acquireFailed
deriving Repr, DecidableEq

/-- The area loop of `paint_region`: walk areas in declaration order,
set the TIFF directory and paint each one, stopping at the first
failure.  The second component records the areas whose grid paint was
actually invoked. -/
def paintAreasLoop (o : PaintOracle) : List Area → PaintOutcome × List Area
  | [] => (.success, [])
  | a :: rest =>
    if ! o.setDirOk a.dir then (.cantSetDirectory, [])
    else if ! o.gridPaintOk a then (.gridPaintFailed, [a])
    else
      let (r, painted) := paintAreasLoop o rest
      (r, a :: painted)

/-- `paint_region`: acquire a TIFF handle (modelled by `acquireOk`), run
the area loop, and return the handle to the pool.  The triple is the
outcome, whether the handle was returned to the pool, and the list of
areas whose grid paint was invoked. -/
def paint_region (o : PaintOracle) (acquireOk : Bool) (areas : List Area) :
    PaintOutcome × Bool × List Area :=
  if ! acquireOk then (.acquireFailed, false, [])
  else
    let (r, painted) := paintAreasLoop o areas
    (r, true, painted)

/-- Concrete inputs for the C4 witness. -/
def imgC4 : Image :=
  { illumination_source := some LEICA_VALUE_BRIGHTFIELD
    objective := none
    isMacroImage := false
    clicks_across := 1000
    clicks_down := 1000
    clicks_offset_x := 3
    clicks_offset_y := 4
    dimensions := [] }

/-- A dimension with click density 102 (similarity to 100 exactly 0.98). -/
def dimC4a : Dimension := { dir := 5, width := 7, height := 7, clicks_per_pixel := 102 }

/-- A dimension with click density 97 (similarity to 100 below 0.98). -/
def dimC4b : Dimension := { dir := 6, width := 8, height := 8, clicks_per_pixel := 97 }

/-- The first main image's dimension with click density 100. -/
def dimC4f : Dimension := { dir := 1, width := 10, height := 10, clicks_per_pixel := 100 }

/-- The pre-existing level for the C4 witness. -/
def lvlC4 : SynthLevel :=
  { clicks_per_pixel := 100
    areas := [{ dir := 9, clicks_offset_x := 0, clicks_offset_y := 0 }] }

/-- Concrete witness data: a legacy-mode collection with one brightfield
main image (offsets 1,0; two dimensions) on a 100 by 80 click canvas. -/
def dimW2a : Dimension := { dir := 1, width := 10, height := 8, clicks_per_pixel := 5 }

/-- The smaller dimension of the witness main image. -/
def dimW2b : Dimension := { dir := 2, width := 5, height := 4, clicks_per_pixel := 10 }

/-- The witness main image. -/
def imgW2 : Image :=
  { illumination_source := some LEICA_VALUE_BRIGHTFIELD
    objective := none
    isMacroImage := false
    clicks_across := 50
    clicks_down := 40
    clicks_offset_x := 1
    clicks_offset_y := 0
    dimensions := [dimW2a, dimW2b] }

/-- The witness collection. -/
def cW2 : Collection := { clicks_across := 100, clicks_down := 80, images := [imgW2] }

/-- The levels synthesized from `cW2`. -/
def lvW2 : List FinalLevel :=
  [{ w := 20, h := 16, clicks_per_pixel := 5
     areas := [{ dir := 1, clicks_offset_x := 1, clicks_offset_y := 0 }] },
   { w := 10, h := 8, clicks_per_pixel := 10
     areas := [{ dir := 2, clicks_offset_x := 1, clicks_offset_y := 0 }] }]

/-- The first synthesized level of `cW2`, for the C3 witness. -/
def lvl0W2 : FinalLevel :=
  { w := 20, h := 16, clicks_per_pixel := 5
    areas := [{ dir := 1, clicks_offset_x := 1, clicks_offset_y := 0 }] }

/-- Two brightfield main images differing in objective, for the C5
witness. -/
def imgW5a : Image :=
  { illumination_source := some LEICA_VALUE_BRIGHTFIELD
    objective := some Z_PLANE_ZERO
    isMacroImage := false
    clicks_across := 50
    clicks_down := 40
    clicks_offset_x := 1
    clicks_offset_y := 0
    dimensions := [] }

/-- The second witness main image, with no objective string. -/
def imgW5b : Image :=
  { illumination_source := some LEICA_VALUE_BRIGHTFIELD
    objective := none
    isMacroImage := false
    clicks_across := 50
    clicks_down := 40
    clicks_offset_x := 2
    clicks_offset_y := 0
    dimensions := [] }

/-- The C5 witness collection with two dissimilar main images. -/
def cW5 : Collection := { clicks_across := 100, clicks_down := 80, images := [imgW5a, imgW5b] }

/-- The main image of the C6 counterexample, placed outside the
collection canvas (offset 150 on a 100-click-wide canvas). -/
def imgC6 : Image :=
  { illumination_source := some LEICA_VALUE_BRIGHTFIELD
    objective := none
    isMacroImage := false
    clicks_across := 50
    clicks_down := 40
    clicks_offset_x := 150
    clicks_offset_y := 20
    dimensions := [{ dir := 7, width := 10, height := 8, clicks_per_pixel := 5 }] }

/-- The C6 counterexample collection. -/
def cC6 : Collection := { clicks_across := 100, clicks_down := 80, images := [imgC6] }

/-- The level synthesized from `cC6`. -/
def lvlC6 : FinalLevel :=
  { w := 20, h := 16, clicks_per_pixel := 5
    areas := [{ dir := 7, clicks_offset_x := 150, clicks_offset_y := 20 }] }

end Leica

namespace OSFile

/-- The observable state of a `struct _openslide_file`: total size and
current read position, in bytes. -/
structure FileState where
  size : Int
  pos : Int
deriving Repr, DecidableEq

/-- The `whence` values used by `_openslide_fsize`. -/
inductive Whence where
  | seekSet
  | seekEnd
deriving Repr, DecidableEq

/-- `_openslide_ftell`: returns the current offset, or -1 when the
underlying `ftello` fails (failure injected through `ok`). -/
def openslide_ftell (ok : Bool) (f : FileState) : Int :=
  if ok then f.pos else -1

/-- `_openslide_fseek`: repositions the stream, returning false when the
underlying `fseeko` fails (failure injected through `ok`), in which case
the position is unchanged. -/
def openslide_fseek (ok : Bool) (f : FileState) (offset : Int) (w : Whence) :
    Bool × FileState :=
  if ok then
    match w with
    | .seekSet => (true, { f with pos := offset })
    | .seekEnd => (true, { f with pos := f.size + offset })
  else (false, f)

/-- `_openslide_fsize`: remember the current offset, seek to the end,
read the offset there as the size, seek back, and return the size;
any intermediate failure returns -1.  The four booleans inject failure
into the four libc calls in program order. -/
def openslide_fsize (t1 s1 t2 s2 : Bool) (f : FileState) : Int × FileState :=
  let orig := openslide_ftell t1 f
  if orig = -1 then (-1, f)
  else
    let (ok1, f1) := openslide_fseek s1 f 0 .seekEnd
    if ! ok1 then (-1, f1)
    else
      let ret := openslide_ftell t2 f1
      if ret = -1 then (-1, f1)
      else
        let (ok2, f2) := openslide_fseek s2 f1 orig .seekSet
        if ! ok2 then (-1, f2)
        else (ret, f2)

end OSFile

namespace Leica

lemma legacyLoop_true_iff (imgs : List Image) (m k : Nat) :
    legacyLoop imgs m k = true ↔
      ((∀ i ∈ imgs, i.isMacroImage = false →
          i.illumination_source = some LEICA_VALUE_BRIGHTFIELD) ∧
       m + (imgs.filter (fun i => ! i.isMacroImage)).length = 1 ∧
       k + (imgs.filter (fun i => i.isMacroImage)).length ≤ 1) := by
  induction imgs generalizing m k with
  | nil => simp [legacyLoop]
  | cons i rest ih =>
    rw [legacyLoop]
    by_cases hm : i.isMacroImage
    · have hfA : (i :: rest).filter (fun j => ! j.isMacroImage) =
          rest.filter (fun j => ! j.isMacroImage) := by
        simp [List.filter_cons, hm]
      have hfB : (i :: rest).filter (fun j => j.isMacroImage) =
          i :: rest.filter (fun j => j.isMacroImage) := by
        simp [List.filter_cons, hm]
      have hall : (∀ j ∈ i :: rest, j.isMacroImage = false →
            j.illumination_source = some LEICA_VALUE_BRIGHTFIELD) ↔
          (∀ j ∈ rest, j.isMacroImage = false →
            j.illumination_source = some LEICA_VALUE_BRIGHTFIELD) := by
        constructor
        · intro h j hj
          exact h j (List.mem_cons_of_mem _ hj)
        · intro h j hj hjm
          rcases List.mem_cons.mp hj with rfl | hj2
          · rw [hm] at hjm; cases hjm
          · exact h j hj2 hjm
      rw [if_pos hm, ih, hfA, hfB, List.length_cons, hall]
      constructor <;> rintro ⟨h1, h2, h3⟩ <;> exact ⟨h1, by omega, by omega⟩
    · rw [if_neg hm]
      by_cases hb : i.illumination_source = some LEICA_VALUE_BRIGHTFIELD
      · have hfA : (i :: rest).filter (fun j => ! j.isMacroImage) =
            i :: rest.filter (fun j => ! j.isMacroImage) := by
          simp [List.filter_cons, hm]
        have hfB : (i :: rest).filter (fun j => j.isMacroImage) =
            rest.filter (fun j => j.isMacroImage) := by
          simp [List.filter_cons, hm]
        have hall : (∀ j ∈ i :: rest, j.isMacroImage = false →
              j.illumination_source = some LEICA_VALUE_BRIGHTFIELD) ↔
            (∀ j ∈ rest, j.isMacroImage = false →
              j.illumination_source = some LEICA_VALUE_BRIGHTFIELD) := by
          constructor
          · intro h j hj
            exact h j (List.mem_cons_of_mem _ hj)
          · intro h j hj hjm
            rcases List.mem_cons.mp hj with rfl | hj2
            · exact hb
            · exact h j hj2 hjm
        rw [if_pos hb, ih, hfA, hfB, List.length_cons, hall]
        constructor <;> rintro ⟨h1, h2, h3⟩ <;> exact ⟨h1, by omega, by omega⟩
      · rw [if_neg hb]
        simp only [Bool.false_eq_true, false_iff]
        rintro ⟨h1, h2, h3⟩
        refine hb (h1 i (List.mem_cons_self i rest) ?_)
        cases hmm : i.isMacroImage
        · rfl
        · exact absurd hmm hm

/-- C1: `should_use_legacy_quickhash` returns true iff every non-macro
image is brightfield, there is exactly one non-macro image, and there is
at most one macro image (equivalently: exactly one non-macro brightfield
image, at most one macro, every non-macro image brightfield); in
particular it is false as soon as some non-macro image has a missing or
non-brightfield illumination source. -/
theorem C1_should_use_legacy_quickhash_iff (c : Collection) :
    should_use_legacy_quickhash c = true ↔
      ((∀ i ∈ c.images, i.isMacroImage = false →
          i.illumination_source = some LEICA_VALUE_BRIGHTFIELD) ∧
       (c.images.filter (fun i => ! i.isMacroImage)).length = 1 ∧
       (c.images.filter (fun i => i.isMacroImage)).length ≤ 1) := by
  simpa [should_use_legacy_quickhash] using legacyLoop_true_iff c.images 0 0

lemma ceilq_eq_ceil (x : ℚ) : ceilq x = ⌈x⌉ := by
  have h : ⌈x⌉ = -⌊-x⌋ := by
    rw [← Int.ceil_neg, neg_neg]
  rw [h, Rat.floor_def]
  rfl

lemma dimension_compare_le_zero (d e : Dimension) :
    dimension_compare d e ≤ 0 ↔ e.width ≤ d.width := by
  unfold dimension_compare
  split_ifs with h1 h2 <;> constructor <;> intro h <;> omega

lemma insertDim_perm (d : Dimension) (l : List Dimension) :
    (insertDim d l).Perm (d :: l) := by
  induction l with
  | nil => simp [insertDim]
  | cons e es ih =>
    rw [insertDim]
    split_ifs with h
    · exact List.Perm.refl _
    · exact (ih.cons e).trans (List.Perm.swap d e es)

lemma insertDim_pairwise (d : Dimension) (l : List Dimension)
    (h : l.Pairwise (fun a b => b.width ≤ a.width)) :
    (insertDim d l).Pairwise (fun a b => b.width ≤ a.width) := by
  induction l with
  | nil => simp [insertDim]
  | cons e es ih =>
    rw [List.pairwise_cons] at h
    obtain ⟨he, hes⟩ := h
    rw [insertDim]
    split_ifs with hc
    · rw [dimension_compare_le_zero] at hc
      refine List.pairwise_cons.mpr ⟨?_, List.pairwise_cons.mpr ⟨he, hes⟩⟩
      intro x hx
      rcases List.mem_cons.mp hx with rfl | hx2
      · exact hc
      · exact le_trans (he x hx2) hc
    · rw [dimension_compare_le_zero] at hc
      push_neg at hc
      refine List.pairwise_cons.mpr ⟨?_, ih hes⟩
      intro x hx
      have hx2 : x ∈ d :: es := (insertDim_perm d es).mem_iff.mp hx
      rcases List.mem_cons.mp hx2 with rfl | hx3
      · exact le_of_lt hc
      · exact he x hx3

lemma insertDim_filter (d : Dimension) (l : List Dimension) (w : Int) :
    (insertDim d l).filter (fun e => e.width = w) =
      (d :: l).filter (fun e => e.width = w) := by
  induction l with
  | nil => simp [insertDim]
  | cons e es ih =>
    rw [insertDim]
    split_ifs with hc
    · rfl
    · rw [dimension_compare_le_zero] at hc
      push_neg at hc
      by_cases hd : d.width = w
      · by_cases hegg : e.width = w
        · exfalso; omega
        · simp [List.filter_cons, hd, hegg, ih]
      · by_cases hegg : e.width = w
        · simp [List.filter_cons, hd, hegg, ih]
        · simp [List.filter_cons, hd, hegg, ih]

lemma sortDimensions_perm (l : List Dimension) :
    (sortDimensions l).Perm l := by
  induction l with
  | nil => simp [sortDimensions]
  | cons d ds ih =>
    rw [sortDimensions]
    exact (insertDim_perm d (sortDimensions ds)).trans (ih.cons d)

lemma sortDimensions_pairwise (l : List Dimension) :
    (sortDimensions l).Pairwise (fun a b => b.width ≤ a.width) := by
  induction l with
  | nil => simp [sortDimensions]
  | cons d ds ih => exact insertDim_pairwise d _ ih

lemma sortDimensions_filter (l : List Dimension) (w : Int) :
    (sortDimensions l).filter (fun e => e.width = w) =
      l.filter (fun e => e.width = w) := by
  induction l with
  | nil => simp [sortDimensions]
  | cons d ds ih =>
    rw [sortDimensions, insertDim_filter, List.filter_cons, List.filter_cons, ih]

/-- C7: the dimension list produced by the parser is a permutation of
the z-filtered manifest dimensions, its widths are weakly descending,
and dimensions of equal width keep their manifest order (the sort is
stable on ties: filtering either list to any fixed width yields the same
sequence). -/
theorem C7_parseDimensions_sorted_stable (ica : Int) (rs : List RawDimension) :
    (parseDimensions ica rs).Pairwise (fun a b => b.width ≤ a.width) ∧
    (∀ w : Int, (parseDimensions ica rs).filter (fun d => d.width = w) =
      ((rs.filter (fun r => zPlaneKeep r.z)).map (mkDimension ica)).filter
        (fun d => d.width = w)) ∧
    (parseDimensions ica rs).Perm
      ((rs.filter (fun r => zPlaneKeep r.z)).map (mkDimension ica)) :=
  ⟨sortDimensions_pairwise _, fun w => sortDimensions_filter _ w, sortDimensions_perm _⟩

/-- C8: the `is_macro` flag computed by the parser is true iff both view
offsets are zero and the view size equals the collection size; any
non-zero offset or size mismatch makes it false. -/
theorem C8_parseImage_isMacro_iff (ca cd : Int) (il ob : Option String)
    (ia idn ox oy : Int) (rd : List RawDimension) :
    (parseImage ca cd il ob ia idn ox oy rd).isMacroImage = true ↔
      (ox = 0 ∧ oy = 0 ∧ ia = ca ∧ idn = cd) := by
  simp [parseImage]

/-- C4: at each dimension of a non-first main image, the synthesizer
first replaces the level's click density by
`min(existing, dimension.clicks_per_pixel)` and then tests the
resolution similarity `1 - |cpp - first_cpp| / first_cpp` against 0.98:
a similarity strictly below 0.98 fails with the BadData error
`inconsistentResolutions`, while a similarity of exactly 0.98 or more is
accepted and processing continues with the minimized density stored. -/
theorem C4_resolution_similarity_boundary (tiff : TiffOracle) (img : Image)
    (d fd : Dimension) (ds fds : List Dimension)
    (l : SynthLevel) (ls : List SynthLevel) :
    (resolutionSimilarity d.clicks_per_pixel fd.clicks_per_pixel < (49 / 50 : ℚ) →
      processRestDims tiff img (d :: ds) (fd :: fds) (l :: ls) =
        .error .inconsistentResolutions) ∧
    ((49 / 50 : ℚ) ≤ resolutionSimilarity d.clicks_per_pixel fd.clicks_per_pixel →
      processRestDims tiff img (d :: ds) (fd :: fds) (l :: ls) =
        match areaChecks tiff d with
        | .error e => .error e
        | .ok _ =>
          match processRestDims tiff img ds fds ls with
          | .error e => .error e
          | .ok rest =>
            .ok ({ clicks_per_pixel := min l.clicks_per_pixel d.clicks_per_pixel
                   areas := l.areas ++
                     [{ dir := d.dir
                        clicks_offset_x := img.clicks_offset_x
                        clicks_offset_y := img.clicks_offset_y }] } :: rest)) := by
  constructor
  · intro h
    rw [processRestDims, if_pos h]
  · intro h
    rw [processRestDims, if_neg (not_lt.mpr h)]

/-- Witness for C4: with first-image density 100, a density of 102 has
similarity exactly 49/50 = 0.98 and is accepted with the minimized
density 100 stored, while a density of 97 has similarity 97/100 < 0.98
and is rejected with `inconsistentResolutions`. -/
theorem C4_resolution_similarity_witness :
    (resolutionSimilarity 102 100 = (49 / 50 : ℚ) ∧
      processRestDims allOkTiff imgC4 [dimC4a] [dimC4f] [lvlC4] =
        .ok [{ clicks_per_pixel := 100
               areas := [{ dir := 9, clicks_offset_x := 0, clicks_offset_y := 0 },
                         { dir := 5, clicks_offset_x := 3, clicks_offset_y := 4 }] }]) ∧
    (resolutionSimilarity 97 100 < (49 / 50 : ℚ) ∧
      processRestDims allOkTiff imgC4 [dimC4b] [dimC4f] [lvlC4] =
        .error .inconsistentResolutions) := by
  constructor
  · refine ⟨by norm_num [resolutionSimilarity], ?_⟩
    have h := (C4_resolution_similarity_boundary allOkTiff imgC4 dimC4a dimC4f
      [] [] lvlC4 []).2 (by norm_num [resolutionSimilarity, dimC4a, dimC4f])
    rw [h]
    rfl
  · refine ⟨by norm_num [resolutionSimilarity], ?_⟩
    exact (C4_resolution_similarity_boundary allOkTiff imgC4 dimC4b dimC4f
      [] [] lvlC4 []).1 (by norm_num [resolutionSimilarity, dimC4b, dimC4f])

lemma paintAreasLoop_spec (o : PaintOracle) (areas : List Area) :
    paintAreasLoop o areas =
      ((if areas.all (fun a => o.setDirOk a.dir && o.gridPaintOk a) then .success
        else
          match (areas.dropWhile (fun a => o.setDirOk a.dir && o.gridPaintOk a)).head? with
          | some a => if o.setDirOk a.dir then .gridPaintFailed else .cantSetDirectory
          | none => .success),
       areas.takeWhile (fun a => o.setDirOk a.dir && o.gridPaintOk a) ++
         ((areas.dropWhile (fun a => o.setDirOk a.dir && o.gridPaintOk a)).head?.toList.filter
           (fun a => o.setDirOk a.dir))) := by
  induction areas with
  | nil => simp [paintAreasLoop]
  | cons a rest ih =>
    rw [paintAreasLoop]
    by_cases hs : o.setDirOk a.dir
    · by_cases hg : o.gridPaintOk a
      · simp only [hs, hg, Bool.not_true, Bool.false_eq_true, if_false, ih]
        simp [List.all_cons, List.takeWhile_cons, List.dropWhile_cons, hs, hg]
      · simp [List.all_cons, List.takeWhile_cons, List.dropWhile_cons, hs, hg]
    · simp [List.all_cons, List.takeWhile_cons, List.dropWhile_cons, hs]

/-- C9: with an acquired TIFF handle, `paint_region` processes the areas
in declaration order and stops at the first failing area: the areas
whose grid paint is invoked are the longest all-successful prefix plus,
when the first failing area got its TIFF directory set, that one area;
a directory-set failure yields the BadData outcome `cantSetDirectory`;
and the handle is returned to the pool (second component `true`) whether
the call succeeds or fails. -/
theorem C9_paint_region_stops_at_first_failure (o : PaintOracle) (areas : List Area) :
    paint_region o true areas =
      ((if areas.all (fun a => o.setDirOk a.dir && o.gridPaintOk a) then .success
        else
          match (areas.dropWhile (fun a => o.setDirOk a.dir && o.gridPaintOk a)).head? with
          | some a => if o.setDirOk a.dir then .gridPaintFailed else .cantSetDirectory
          | none => .success),
       true,
       areas.takeWhile (fun a => o.setDirOk a.dir && o.gridPaintOk a) ++
         ((areas.dropWhile (fun a => o.setDirOk a.dir && o.gridPaintOk a)).head?.toList.filter
           (fun a => o.setDirOk a.dir))) := by
  rw [paint_region]
  simp only [Bool.not_true, Bool.false_eq_true, if_false, paintAreasLoop_spec]

end Leica

namespace OSFile

/-- C10: on the model of `_openslide_fsize`, whenever the call does not
return -1 it returns the file size and the final position equals the
entry position (the position saved at entry is restored); if any of the
four underlying tell/seek calls fails, the call returns -1; and when all
four succeed it returns the size with the file state fully unchanged. -/
theorem C10_fsize_size_and_position (f : FileState) (t1 s1 t2 s2 : Bool)
    (hpos : 0 ≤ f.pos) (hsize : 0 ≤ f.size) :
    ((openslide_fsize t1 s1 t2 s2 f).1 ≠ -1 →
      (openslide_fsize t1 s1 t2 s2 f).1 = f.size ∧
      (openslide_fsize t1 s1 t2 s2 f).2.pos = f.pos ∧
      (openslide_fsize t1 s1 t2 s2 f).2.size = f.size) ∧
    ((t1 = false ∨ s1 = false ∨ t2 = false ∨ s2 = false) →
      (openslide_fsize t1 s1 t2 s2 f).1 = -1) ∧
    (t1 = true → s1 = true → t2 = true → s2 = true →
      openslide_fsize t1 s1 t2 s2 f = (f.size, f)) := by
  obtain ⟨sz, p⟩ := f
  simp only at hpos hsize
  have hp : ¬(p = -1) := by omega
  have hsz : ¬(sz + 0 = -1) := by omega
  have hsz2 : ¬(sz = -1) := by omega
  cases t1 <;> cases s1 <;> cases t2 <;> cases s2 <;>
    simp [openslide_fsize, openslide_ftell, openslide_fseek, hp, hsz, hsz2]

/-- Witness for C10 at a concrete file of size 100 positioned at 7:
with all calls succeeding the result is the size with the position
restored, and with a failing seek-to-end the result is -1. -/
theorem C10_fsize_witness :
    (0 ≤ (7 : Int) ∧ 0 ≤ (100 : Int)) ∧
    openslide_fsize true true true true ⟨100, 7⟩ = (100, ⟨100, 7⟩) ∧
    (openslide_fsize true false true true ⟨100, 7⟩).1 = -1 := by
  refine ⟨⟨by norm_num, by norm_num⟩, ?_, ?_⟩
  · exact (C10_fsize_size_and_position ⟨100, 7⟩ true true true true
      (by norm_num) (by norm_num)).2.2 rfl rfl rfl rfl
  · exact (C10_fsize_size_and_position ⟨100, 7⟩ true false true true
      (by norm_num) (by norm_num)).2.1 (Or.inr (Or.inl rfl))

end OSFile

namespace Leica

lemma find?_eq_head_of_filter {α : Type} (p : α → Bool) :
    ∀ l : List α, l.find? p = (l.filter p).head? := by
  intro l
  induction l with
  | nil => rfl
  | cons a tl ih =>
    by_cases h : p a = true
    · rw [List.find?_cons_of_pos _ h, List.filter_cons, if_pos h, List.head?_cons]
    · rw [List.find?_cons_of_neg _ (by simpa using h), List.filter_cons,
        if_neg (by simpa using h), ih]

lemma filterMap_eq_map_of_all_some {α β : Type} (g : α → Option β) (gd : α → β) :
    ∀ L : List α, (∀ i ∈ L, g i = some (gd i)) → L.filterMap g = L.map gd := by
  intro L
  induction L with
  | nil => intro _; rfl
  | cons a tl ih =>
    intro h
    rw [List.filterMap_cons, h a (List.mem_cons_self a tl), List.map_cons,
      ih (fun i hi => h i (List.mem_cons_of_mem _ hi))]

lemma similarTo_self (f : Image) : similarTo f f = true := by
  simp [similarTo]

lemma similarTo_length {f i : Image} (h : similarTo f i = true) :
    i.dimensions.length = f.dimensions.length := by
  simp only [similarTo, Bool.and_eq_true, decide_eq_true_eq] at h
  exact h.2

lemma areaChecks_allOk (d : Dimension) : areaChecks allOkTiff d = .ok () := rfl

lemma processFirstDims_ok (tiff : TiffOracle) (img : Image) :
    ∀ (ds : List Dimension) (ls : List SynthLevel),
    processFirstDims tiff img ds = .ok ls →
    ls.map (fun l => l.clicks_per_pixel) = ds.map (fun d => d.clicks_per_pixel) ∧
    ls.length = ds.length ∧
    (∀ l ∈ ls, ∀ a ∈ l.areas,
      a.clicks_offset_x = img.clicks_offset_x ∧
      a.clicks_offset_y = img.clicks_offset_y) := by
  intro ds
  induction ds with
  | nil =>
    intro ls h
    rw [processFirstDims] at h
    cases h
    simp
  | cons d ds ih =>
    intro ls h
    rw [processFirstDims] at h
    cases hac : areaChecks tiff d with
    | error e => rw [hac] at h; cases h
    | ok u =>
      rw [hac] at h
      cases hrec : processFirstDims tiff img ds with
      | error e => rw [hrec] at h; cases h
      | ok rest =>
        rw [hrec] at h
        cases h
        obtain ⟨h1, h2, h3⟩ := ih rest hrec
        refine ⟨by simp [h1], by simp [h2], ?_⟩
        intro l hl a ha
        rcases List.mem_cons.mp hl with rfl | hl2
        · simp only [List.mem_singleton] at ha
          subst ha
          exact ⟨rfl, rfl⟩
        · exact h3 l hl2 a ha

lemma processFirstDims_allOk_ex (img : Image) :
    ∀ ds : List Dimension, ∃ ls, processFirstDims allOkTiff img ds = .ok ls := by
  intro ds
  induction ds with
  | nil => exact ⟨[], rfl⟩
  | cons d ds ih =>
    obtain ⟨ls, hls⟩ := ih
    exact ⟨_, by rw [processFirstDims, areaChecks_allOk, hls]⟩

lemma processRestDims_ok (tiff : TiffOracle) (img : Image) :
    ∀ (ds fds : List Dimension) (ls ls2 : List SynthLevel),
    processRestDims tiff img ds fds ls = .ok ls2 →
    ds.length ≤ ls.length ∧ ls2.length = ls.length ∧
    ls2.map (fun l => l.clicks_per_pixel) =
      (List.zipWith min (ls.map (fun l => l.clicks_per_pixel))
        (ds.map (fun d => d.clicks_per_pixel))) ++
        ((ls.map (fun l => l.clicks_per_pixel)).drop ds.length) ∧
    (∀ l2 ∈ ls2, ∀ a ∈ l2.areas,
      (∃ l1 ∈ ls, a ∈ l1.areas) ∨
      (a.clicks_offset_x = img.clicks_offset_x ∧
       a.clicks_offset_y = img.clicks_offset_y)) := by
  intro ds
  induction ds with
  | nil =>
    intro fds ls ls2 h
    rw [processRestDims] at h
    cases h
    refine ⟨by simp, rfl, by simp, ?_⟩
    intro l2 h2 a ha
    exact Or.inl ⟨l2, h2, ha⟩
  | cons d ds ih =>
    intro fds ls ls2 h
    cases ls with
    | nil => rw [processRestDims] at h; cases h
    | cons l ls =>
      cases fds with
      | nil => rw [processRestDims] at h; cases h
      | cons fd fds =>
        rw [processRestDims] at h
        by_cases hsim :
            resolutionSimilarity d.clicks_per_pixel fd.clicks_per_pixel < (49 / 50 : ℚ)
        · rw [if_pos hsim] at h; cases h
        · rw [if_neg hsim] at h
          cases hac : areaChecks tiff d with
          | error e => rw [hac] at h; cases h
          | ok u =>
            rw [hac] at h
            cases hrec : processRestDims tiff img ds fds ls with
            | error e => rw [hrec] at h; cases h
            | ok rest =>
              rw [hrec] at h
              cases h
              obtain ⟨ha1, ha2, ha3, ha4⟩ := ih fds ls rest hrec
              refine ⟨by simpa using Nat.succ_le_succ ha1, by simp [ha2], ?_, ?_⟩
              · simp only [List.map_cons, List.zipWith_cons_cons, List.length_cons,
                  List.drop_succ_cons, List.cons_append, ha3]
              · intro l2 hl2 a ha
                rcases List.mem_cons.mp hl2 with rfl | hl3
                · simp only [List.mem_append, List.mem_singleton] at ha
                  rcases ha with ha | rfl
                  · exact Or.inl ⟨l, List.mem_cons_self l ls, ha⟩
                  · exact Or.inr ⟨rfl, rfl⟩
                · rcases ha4 l2 hl3 a ha with ⟨l1, hl1, hal1⟩ | hoff
                  · exact Or.inl ⟨l1, List.mem_cons_of_mem _ hl1, hal1⟩
                  · exact Or.inr hoff

lemma mainLoop_some_ok (tiff : TiffOracle) (legacy : Bool) (f : Image) :
    ∀ (imgs : List Image) (ls : List SynthLevel) (q : Int)
      (fst : Option Image) (ls2 : List SynthLevel) (q2 : Int),
    mainLoop tiff legacy imgs (some f) ls q = .ok (fst, ls2, q2) →
    fst = some f ∧ q2 = q ∧
    (∀ i ∈ imgs, isMainImage i = true → similarTo f i = true) ∧
    (ls.length = f.dimensions.length →
      ls2.map (fun l => l.clicks_per_pixel) =
        cppFold (imgs.filter isMainImage) (ls.map (fun l => l.clicks_per_pixel)) ∧
      ls2.length = ls.length) ∧
    (∀ l2 ∈ ls2, ∀ a ∈ l2.areas,
      (∃ l1 ∈ ls, a ∈ l1.areas) ∨
      (∃ i ∈ imgs, isMainImage i = true ∧
        a.clicks_offset_x = i.clicks_offset_x ∧
        a.clicks_offset_y = i.clicks_offset_y)) := by
  intro imgs
  induction imgs with
  | nil =>
    intro ls q fst ls2 q2 h
    rw [mainLoop] at h
    cases h
    refine ⟨rfl, rfl, by simp, fun _ => ⟨rfl, rfl⟩, ?_⟩
    intro l2 h2 a ha
    exact Or.inl ⟨l2, h2, ha⟩
  | cons img rest ih =>
    intro ls q fst ls2 q2 h
    rw [mainLoop] at h
    by_cases hmain : isMainImage img = true
    · rw [if_pos hmain] at h
      by_cases hsim : similarTo f img = true
      · rw [if_neg (by simp [hsim])] at h
        cases hpr : processRestDims tiff img img.dimensions f.dimensions ls with
        | error e => rw [hpr] at h; cases h
        | ok ls1 =>
          rw [hpr] at h
          obtain ⟨g1, g2, g3, g4, g5⟩ := ih ls1 q fst ls2 q2 h
          obtain ⟨p1, p2, p3, p4⟩ := processRestDims_ok tiff img _ _ _ _ hpr
          refine ⟨g1, g2, ?_, ?_, ?_⟩
          · intro i hi hmi
            rcases List.mem_cons.mp hi with rfl | hi2
            · exact hsim
            · exact g3 i hi2 hmi
          · intro hlen
            have hlen1 : img.dimensions.length = ls.length := by
              rw [similarTo_length hsim, hlen]
            have hdrop : ((ls.map (fun l => l.clicks_per_pixel)).drop
                img.dimensions.length) = [] := by
              rw [hlen1]
              rw [show ls.length = (ls.map (fun l => l.clicks_per_pixel)).length by simp]
              exact List.drop_length _
            have hcpp1 : ls1.map (fun l => l.clicks_per_pixel) =
                List.zipWith min (ls.map (fun l => l.clicks_per_pixel)) (cppsOf img) := by
              rw [p3, hdrop, List.append_nil]
              rfl
            have hlen2 : ls1.length = f.dimensions.length := by
              rw [p2, hlen]
            obtain ⟨hc, hl⟩ := g4 hlen2
            constructor
            · rw [hc, List.filter_cons, if_pos hmain, hcpp1]
              rfl
            · rw [hl, p2]
          · intro l2 hl2 a ha
            rcases g5 l2 hl2 a ha with ⟨l1, hl1, hal1⟩ | ⟨i, hi, hprops⟩
            · rcases p4 l1 hl1 a hal1 with ⟨l0, hl0, hal0⟩ | hoff
              · exact Or.inl ⟨l0, hl0, hal0⟩
              · exact Or.inr ⟨img, List.mem_cons_self img rest, hmain, hoff⟩
            · exact Or.inr ⟨i, List.mem_cons_of_mem _ hi, hprops⟩
      · rw [if_pos (by simp [Bool.not_eq_true] at hsim; simp [hsim])] at h
        cases h
    · rw [if_neg hmain] at h
      obtain ⟨g1, g2, g3, g4, g5⟩ := ih ls q fst ls2 q2 h
      refine ⟨g1, g2, ?_, ?_, ?_⟩
      · intro i hi hmi
        rcases List.mem_cons.mp hi with rfl | hi2
        · exact absurd hmi hmain
        · exact g3 i hi2 hmi
      · intro hlen
        obtain ⟨hc, hl⟩ := g4 hlen
        refine ⟨?_, hl⟩
        rw [hc, List.filter_cons, if_neg hmain]
      · intro l2 hl2 a ha
        rcases g5 l2 hl2 a ha with hleft | ⟨i, hi, hprops⟩
        · exact Or.inl hleft
        · exact Or.inr ⟨i, List.mem_cons_of_mem _ hi, hprops⟩

lemma mainLoop_none_ok (tiff : TiffOracle) (legacy : Bool) :
    ∀ (imgs : List Image) (q : Int) (fst : Option Image)
      (ls2 : List SynthLevel) (q2 : Int),
    mainLoop tiff legacy imgs none [] q = .ok (fst, ls2, q2) →
    (imgs.find? isMainImage = none → fst = none ∧ ls2 = [] ∧ q2 = q) ∧
    (∀ f, imgs.find? isMainImage = some f →
      fst = some f ∧
      (legacy = true → ∃ d, f.dimensions.getLast? = some d ∧ q2 = d.dir) ∧
      (legacy = false → q2 = q) ∧
      (∀ i ∈ imgs, isMainImage i = true → similarTo f i = true) ∧
      ls2.map (fun l => l.clicks_per_pixel) =
        cppFold ((imgs.filter isMainImage).tail) (cppsOf f) ∧
      ls2.length = f.dimensions.length ∧
      (∀ l2 ∈ ls2, ∀ a ∈ l2.areas,
        ∃ i ∈ imgs, isMainImage i = true ∧
          a.clicks_offset_x = i.clicks_offset_x ∧
          a.clicks_offset_y = i.clicks_offset_y)) := by
  intro imgs
  induction imgs with
  | nil =>
    intro q fst ls2 q2 h
    rw [mainLoop] at h
    cases h
    exact ⟨fun _ => ⟨rfl, rfl, rfl⟩, fun f hf => by cases hf⟩
  | cons img rest ih =>
    intro q fst ls2 q2 h
    rw [mainLoop] at h
    by_cases hmain : isMainImage img = true
    · rw [if_pos hmain] at h
      have hfind : (img :: rest).find? isMainImage = some img :=
        List.find?_cons_of_pos _ hmain
      split at h
      · cases h
      · rename_i ls1 hfd
        obtain ⟨f1, f2, f3⟩ := processFirstDims_ok tiff img _ _ hfd
        refine ⟨?_, ?_⟩
        · intro habs
          rw [hfind] at habs
          cases habs
        · intro f hf
          rw [hfind] at hf
          injection hf with hf
          subst hf
          split at h
          · rename_i hleg
            split at h
            · rename_i d hlast
              obtain ⟨g1, g2, g3, g4, g5⟩ :=
                mainLoop_some_ok tiff legacy img rest _ _ _ _ _ h
              have hlen1 : ([] ++ ls1).length = img.dimensions.length := by
                simpa using f2
              obtain ⟨hc, hl⟩ := g4 hlen1
              refine ⟨g1, fun _ => ⟨d, hlast, g2⟩, ?_, ?_, ?_, ?_, ?_⟩
              · intro habs
                rw [hleg] at habs
                cases habs
              · intro i hi hmi
                rcases List.mem_cons.mp hi with rfl | hi2
                · exact similarTo_self i
                · exact g3 i hi2 hmi
              · rw [hc, List.filter_cons, if_pos hmain, List.tail_cons]
                have hmap : ([] ++ ls1).map (fun l : SynthLevel => l.clicks_per_pixel) = cppsOf img := by
                  simpa using f1
                rw [hmap]
              · rw [hl]
                simpa using f2
              · intro l2 hl2 a ha
                rcases g5 l2 hl2 a ha with ⟨l1, hl1, hal1⟩ | ⟨i, hi, hprops⟩
                · have hl1b : l1 ∈ ls1 := by simpa using hl1
                  exact ⟨img, List.mem_cons_self img rest, hmain, f3 l1 hl1b a hal1⟩
                · exact ⟨i, List.mem_cons_of_mem _ hi, hprops⟩
            · cases h
          · rename_i hleg
            have hlegf : legacy = false := by
              simpa using hleg
            obtain ⟨g1, g2, g3, g4, g5⟩ :=
              mainLoop_some_ok tiff legacy img rest _ _ _ _ _ h
            have hlen1 : ([] ++ ls1).length = img.dimensions.length := by
              simpa using f2
            obtain ⟨hc, hl⟩ := g4 hlen1
            refine ⟨g1, ?_, fun _ => g2, ?_, ?_, ?_, ?_⟩
            · intro habs
              rw [hlegf] at habs
              cases habs
            · intro i hi hmi
              rcases List.mem_cons.mp hi with rfl | hi2
              · exact similarTo_self i
              · exact g3 i hi2 hmi
            · rw [hc, List.filter_cons, if_pos hmain, List.tail_cons]
              have hmap : ([] ++ ls1).map (fun l : SynthLevel => l.clicks_per_pixel) = cppsOf img := by
                simpa using f1
              rw [hmap]
            · rw [hl]
              simpa using f2
            · intro l2 hl2 a ha
              rcases g5 l2 hl2 a ha with ⟨l1, hl1, hal1⟩ | ⟨i, hi, hprops⟩
              · have hl1b : l1 ∈ ls1 := by simpa using hl1
                exact ⟨img, List.mem_cons_self img rest, hmain, f3 l1 hl1b a hal1⟩
              · exact ⟨i, List.mem_cons_of_mem _ hi, hprops⟩
    · rw [if_neg hmain] at h
      obtain ⟨ihn, ihs⟩ := ih q fst ls2 q2 h
      have hfind : (img :: rest).find? isMainImage = rest.find? isMainImage :=
        List.find?_cons_of_neg _ (by simpa using hmain)
      refine ⟨?_, ?_⟩
      · intro hnone
        rw [hfind] at hnone
        exact ihn hnone
      · intro f hf
        rw [hfind] at hf
        obtain ⟨g1, g2, g3, g4, g5, g6, g7⟩ := ihs f hf
        refine ⟨g1, g2, g3, ?_, ?_, g6, ?_⟩
        · intro i hi hmi
          rcases List.mem_cons.mp hi with rfl | hi2
          · exact absurd hmi hmain
          · exact g4 i hi2 hmi
        · rw [List.filter_cons, if_neg hmain]
          exact g5
        · intro l2 hl2 a ha
          obtain ⟨i, hi, hprops⟩ := g7 l2 hl2 a ha
          exact ⟨i, List.mem_cons_of_mem _ hi, hprops⟩

lemma processMacroImages_ok (tiff : TiffOracle) (legacy : Bool) :
    ∀ (imgs : List Image) (hm : Bool) (q q2 : Int),
    processMacroImages tiff legacy imgs hm q = .ok q2 →
    (legacy = true → q2 = q) ∧
    (legacy = false →
      (imgs.find? isBrightfieldMacroImage = none → q2 = q) ∧
      (∀ m, imgs.find? isBrightfieldMacroImage = some m →
        hm = false ∧ ∃ d, m.dimensions.getLast? = some d ∧ q2 = d.dir)) := by
  intro imgs
  induction imgs with
  | nil =>
    intro hm q q2 h
    rw [processMacroImages] at h
    cases h
    exact ⟨fun _ => rfl, fun _ => ⟨fun _ => rfl, fun m hm2 => by cases hm2⟩⟩
  | cons img rest ih =>
    intro hm q q2 h
    rw [processMacroImages] at h
    by_cases hbm : isBrightfieldMacroImage img = true
    · rw [if_pos hbm] at h
      have hfind : (img :: rest).find? isBrightfieldMacroImage = some img :=
        List.find?_cons_of_pos _ hbm
      cases hmv : hm
      · subst hmv
        rw [if_neg (by simp)] at h
        split at h
        · cases h
        · rename_i d0 tl hdims
          by_cases hassoc : tiff.assocImageOk d0.dir = true
          · rw [if_neg (by simp [hassoc])] at h
            obtain ⟨j1, j2⟩ := ih true _ q2 h
            refine ⟨?_, ?_⟩
            · intro hleg
              have := j1 hleg
              rw [hleg] at this
              simpa using this
            · intro hleg
              refine ⟨?_, ?_⟩
              · intro hnone
                rw [hfind] at hnone
                cases hnone
              · intro m hmfind
                rw [hfind] at hmfind
                injection hmfind with hmf
                subst hmf
                refine ⟨rfl, ?_⟩
                obtain ⟨jnone, jsome⟩ := j2 hleg
                cases hrf : rest.find? isBrightfieldMacroImage with
                | some m2 => exact absurd (jsome m2 hrf).1 (by simp)
                | none =>
                  have hq2 := jnone hrf
                  rw [hleg] at hq2
                  simp only [Bool.false_eq_true, if_false] at hq2
                  refine ⟨(d0 :: tl).getLast (by simp), ?_, hq2⟩
                  rw [hdims]
                  exact List.getLast?_eq_getLast _ (by simp)
          · rw [if_pos (by simp [hassoc])] at h
            cases h
      · subst hmv
        rw [if_pos rfl] at h
        cases h
    · rw [if_neg hbm] at h
      obtain ⟨j1, j2⟩ := ih hm q q2 h
      have hfind : (img :: rest).find? isBrightfieldMacroImage =
          rest.find? isBrightfieldMacroImage :=
        List.find?_cons_of_neg _ (by simpa using hbm)
      refine ⟨j1, ?_⟩
      intro hleg
      obtain ⟨jnone, jsome⟩ := j2 hleg
      refine ⟨?_, ?_⟩
      · intro hnone
        rw [hfind] at hnone
        exact jnone hnone
      · intro m hmfind
        rw [hfind] at hmfind
        exact jsome m hmfind

lemma create_levels_ok_inv (tiff : TiffOracle) (c : Collection)
    (levels : List FinalLevel) (q : Int)
    (h : create_levels_from_collection tiff c = .ok (levels, q)) :
    ∃ f ls qm,
      c.images.find? isMainImage = some f ∧
      mainLoop tiff (should_use_legacy_quickhash c) c.images none [] (-1) =
        .ok (some f, ls, qm) ∧
      processMacroImages tiff (should_use_legacy_quickhash c) c.images false qm =
        .ok q ∧
      q ≠ -1 ∧ levels = ls.map (finalizeLevel c) := by
  rw [create_levels_from_collection] at h
  split at h
  · cases h
  · rename_i fst ls qm hml
    split at h
    · cases h
    · rename_i f0
      split at h
      · cases h
      · rename_i q1 hpm
        split at h
        · cases h
        · rename_i hq1
          cases h
          obtain ⟨hnone, hsome⟩ :=
            mainLoop_none_ok tiff (should_use_legacy_quickhash c) c.images _ _ _ _ hml
          cases hfind : c.images.find? isMainImage with
          | none =>
            obtain ⟨habs, _, _⟩ := hnone hfind
            cases habs
          | some f =>
            have hfst := (hsome f hfind).1
            injection hfst with hff
            subst hff
            exact ⟨f0, ls, qm, rfl, hml, hpm, hq1, rfl⟩

lemma cppFold_getElem (gs : List Image) :
    ∀ (init : List ℚ) (k : Nat) (x : ℚ),
    init[k]? = some x → (∀ g ∈ gs, (cppsOf g).length = init.length) →
    (cppFold gs init)[k]? =
      some (gs.foldl (fun acc g => min acc ((cppsOf g).getD k 0)) x) := by
  induction gs with
  | nil =>
    intro init k x hx _
    simpa [cppFold] using hx
  | cons g gs ih =>
    intro init k x hx hlen
    have hk : k < init.length := (List.getElem?_eq_some.mp hx).1
    have hgl : (cppsOf g).length = init.length := hlen g (List.mem_cons_self g gs)
    have hkg : k < (cppsOf g).length := by rw [hgl]; exact hk
    have hgval : (cppsOf g)[k]? = some ((cppsOf g).getD k 0) := by
      rw [List.getD_eq_getElem _ 0 hkg]
      exact List.getElem?_eq_getElem hkg
    have hzip : (List.zipWith min init (cppsOf g))[k]? =
        some (min x ((cppsOf g).getD k 0)) := by
      rw [List.getElem?_zipWith, hx, hgval]
    have hlen2 : ∀ g2 ∈ gs, (cppsOf g2).length =
        (List.zipWith min init (cppsOf g)).length := by
      intro g2 hg2
      rw [List.length_zipWith, hgl, min_self]
      exact hlen g2 (List.mem_cons_of_mem _ hg2)
    have hstep := ih (List.zipWith min init (cppsOf g)) k
      (min x ((cppsOf g).getD k 0)) hzip hlen2
    simp only [cppFold] at hstep ⊢
    rw [List.foldl_cons, List.foldl_cons]
    exact hstep

/-- C2: whenever level synthesis succeeds, the quickhash directory is
set (not -1) and equals, in legacy mode, the dir of the last
(smallest-width) dimension of the first surviving main image, and in
non-legacy mode the dir of the last (smallest-width) dimension of the
accepted brightfield macro image; and in non-legacy mode with no
brightfield macro image, synthesis fails rather than succeeding with the
quickhash directory unset. -/
theorem C2_quickhash_dir_selection (tiff : TiffOracle) (c : Collection) :
    (∀ levels q, create_levels_from_collection tiff c = .ok (levels, q) →
      q ≠ -1 ∧
      (should_use_legacy_quickhash c = true →
        ∃ f d, firstMainImage c = some f ∧
          f.dimensions.getLast? = some d ∧ q = d.dir) ∧
      (should_use_legacy_quickhash c = false →
        ∃ m d, firstBrightfieldMacroImage c = some m ∧
          m.dimensions.getLast? = some d ∧ q = d.dir)) ∧
    (should_use_legacy_quickhash c = false →
      firstBrightfieldMacroImage c = none →
      ∀ out, create_levels_from_collection tiff c ≠ .ok out) := by
  constructor
  · intro levels q h
    obtain ⟨f, ls, qm, hfind, hml, hpm, hq, hlv⟩ := create_levels_ok_inv tiff c levels q h
    obtain ⟨hnone, hsome⟩ := mainLoop_none_ok tiff _ c.images _ _ _ _ hml
    obtain ⟨m1, m2, m3, m4, m5, m6, m7⟩ := hsome f hfind
    obtain ⟨p1, p2⟩ := processMacroImages_ok tiff _ c.images false qm q hpm
    refine ⟨hq, ?_, ?_⟩
    · intro hleg
      obtain ⟨d, hd, hqm⟩ := m2 hleg
      exact ⟨f, d, hfind, hd, by rw [p1 hleg, hqm]⟩
    · intro hleg
      obtain ⟨pn, ps⟩ := p2 hleg
      cases hbf : c.images.find? isBrightfieldMacroImage with
      | none =>
        have hqq : q = qm := pn hbf
        have hqm1 : qm = -1 := m3 hleg
        exact absurd (by rw [hqq, hqm1]) hq
      | some m =>
        obtain ⟨_, d, hd, hq2⟩ := ps m hbf
        exact ⟨m, d, hbf, hd, hq2⟩
  · intro hleg hNoBfMac out hok
    obtain ⟨levels, q⟩ := out
    obtain ⟨f, ls, qm, hfind, hml, hpm, hq, hlv⟩ :=
      create_levels_ok_inv tiff c levels q hok
    obtain ⟨hnone, hsome⟩ := mainLoop_none_ok tiff _ c.images _ _ _ _ hml
    have hqm : qm = -1 := (hsome f hfind).2.2.1 hleg
    obtain ⟨p1, p2⟩ := processMacroImages_ok tiff _ c.images false qm q hpm
    have hqq : q = qm := (p2 hleg).1 hNoBfMac
    exact hq (by rw [hqq, hqm])

/-- Witness for C2: on `cW2` (legacy mode) synthesis succeeds with
quickhash directory 2, the dir of the last dimension of the first main
image. -/
theorem C2_quickhash_dir_witness :
    create_levels_from_collection allOkTiff cW2 = .ok (lvW2, 2) ∧
    (2 : Int) ≠ -1 ∧
    (∃ f d, firstMainImage cW2 = some f ∧
      f.dimensions.getLast? = some d ∧ (2 : Int) = d.dir) := by
  have hev : create_levels_from_collection allOkTiff cW2 = .ok (lvW2, 2) := by
    norm_num [create_levels_from_collection, mainLoop, processFirstDims, areaChecks,
      allOkTiff, processMacroImages, should_use_legacy_quickhash, legacyLoop,
      isMainImage, isBrightfieldMacroImage, similarTo, finalizeLevel, ceilq, cW2,
      imgW2, lvW2, dimW2a, dimW2b, LEICA_VALUE_BRIGHTFIELD]
  have hleg : should_use_legacy_quickhash cW2 = true := by
    norm_num [should_use_legacy_quickhash, legacyLoop, cW2, imgW2,
      LEICA_VALUE_BRIGHTFIELD]
  refine ⟨hev, ?_, ?_⟩
  · exact ((C2_quickhash_dir_selection allOkTiff cW2).1 lvW2 2 hev).1
  · exact ((C2_quickhash_dir_selection allOkTiff cW2).1 lvW2 2 hev).2.1 hleg

/-- C3: after successful synthesis, every level's click density is the
minimum of the k-th dimension's click density over all surviving main
images, and its pixel sizes are the ceilings of the collection click
sizes divided by that density. -/
theorem C3_level_density_and_sizes (tiff : TiffOracle) (c : Collection)
    (levels : List FinalLevel) (q : Int)
    (h : create_levels_from_collection tiff c = .ok (levels, q)) :
    ∀ (k : Nat) (l : FinalLevel), levels[k]? = some l →
      ((mainImages c).filterMap
          (fun i => (i.dimensions[k]?).map (fun d => d.clicks_per_pixel))).min? =
        some l.clicks_per_pixel ∧
      l.w = ⌈(c.clicks_across : ℚ) / l.clicks_per_pixel⌉ ∧
      l.h = ⌈(c.clicks_down : ℚ) / l.clicks_per_pixel⌉ := by
  obtain ⟨f, ls, qm, hfind, hml, hpm, hq, hlv⟩ := create_levels_ok_inv tiff c levels q h
  obtain ⟨hnone, hsome⟩ := mainLoop_none_ok tiff _ c.images _ _ _ _ hml
  obtain ⟨m1, m2, m3, m4, m5, m6, m7⟩ := hsome f hfind
  subst hlv
  intro k l hkl
  rw [List.getElem?_map] at hkl
  cases hsl : ls[k]? with
  | none => rw [hsl] at hkl; cases hkl
  | some sl =>
    rw [hsl] at hkl
    injection hkl with hkl
    subst hkl
    refine ⟨?_, ceilq_eq_ceil _, ceilq_eq_ceil _⟩
    have hk : k < ls.length := (List.getElem?_eq_some.mp hsl).1
    have hkf : k < f.dimensions.length := by rw [← m6]; exact hk
    have hkcf : k < (cppsOf f).length := by
      rw [cppsOf, List.length_map]
      exact hkf
    have hhead : (c.images.filter isMainImage).head? = some f := by
      rw [← find?_eq_head_of_filter]
      exact hfind
    cases hflt : c.images.filter isMainImage with
    | nil => rw [hflt] at hhead; cases hhead
    | cons f2 tl =>
      rw [hflt] at hhead
      injection hhead with hh
      subst hh
      have hdimlen : ∀ i ∈ c.images.filter isMainImage,
          i.dimensions.length = f2.dimensions.length := by
        intro i hi
        obtain ⟨hic, him⟩ := List.mem_filter.mp hi
        exact similarTo_length (m4 i hic him)
      have hall : ∀ i ∈ f2 :: tl,
          (fun i => (i.dimensions[k]?).map (fun d => d.clicks_per_pixel)) i =
            some ((cppsOf i).getD k 0) := by
        intro i hi
        have hi2 : i ∈ c.images.filter isMainImage := by rw [hflt]; exact hi
        have hlen : i.dimensions.length = f2.dimensions.length := hdimlen i hi2
        have hki : k < (cppsOf i).length := by
          rw [cppsOf, List.length_map, hlen]
          exact hkf
        have : (cppsOf i)[k]? = some ((cppsOf i).getD k 0) := by
          rw [List.getD_eq_getElem _ 0 hki]
          exact List.getElem?_eq_getElem hki
        rw [← this, cppsOf, List.getElem?_map]
      simp only [mainImages]
      rw [hflt, filterMap_eq_map_of_all_some _ (fun i => (cppsOf i).getD k 0) _ hall,
        List.map_cons, List.min?_cons', List.foldl_map]
      have hx : (cppsOf f2)[k]? = some ((cppsOf f2).getD k 0) := by
        rw [List.getD_eq_getElem _ 0 hkcf]
        exact List.getElem?_eq_getElem hkcf
      have hlen2 : ∀ g ∈ tl, (cppsOf g).length = (cppsOf f2).length := by
        intro g hg
        have hg2 : g ∈ c.images.filter isMainImage := by
          rw [hflt]
          exact List.mem_cons_of_mem _ hg
        rw [cppsOf, cppsOf, List.length_map, List.length_map, hdimlen g hg2]
      have hcf := cppFold_getElem tl (cppsOf f2) k ((cppsOf f2).getD k 0) hx hlen2
      have htail : (c.images.filter isMainImage).tail = tl := by rw [hflt]; rfl
      rw [htail] at m5
      have hms : (ls.map (fun l => l.clicks_per_pixel))[k]? =
          some sl.clicks_per_pixel := by
        rw [List.getElem?_map, hsl]
        rfl
      rw [m5, hcf] at hms
      injection hms with hms
      rw [hms]
      rfl

/-- Witness for C3: on `cW2`, level 0 has click density 5 (the minimum
over the single main image's dimension 0) and sizes 20 by 16. -/
theorem C3_level_density_witness :
    create_levels_from_collection allOkTiff cW2 = .ok (lvW2, 2) ∧
    lvW2[0]? = some lvl0W2 ∧
    (((mainImages cW2).filterMap
        (fun i => (i.dimensions[0]?).map (fun d => d.clicks_per_pixel))).min? =
      some lvl0W2.clicks_per_pixel ∧
     lvl0W2.w = ⌈(cW2.clicks_across : ℚ) / lvl0W2.clicks_per_pixel⌉ ∧
     lvl0W2.h = ⌈(cW2.clicks_down : ℚ) / lvl0W2.clicks_per_pixel⌉) := by
  have hev : create_levels_from_collection allOkTiff cW2 = .ok (lvW2, 2) := by
    norm_num [create_levels_from_collection, mainLoop, processFirstDims, areaChecks,
      allOkTiff, processMacroImages, should_use_legacy_quickhash, legacyLoop,
      isMainImage, isBrightfieldMacroImage, similarTo, finalizeLevel, ceilq, cW2,
      imgW2, lvW2, dimW2a, dimW2b, LEICA_VALUE_BRIGHTFIELD]
  exact ⟨hev, rfl, C3_level_density_and_sizes allOkTiff cW2 lvW2 2 hev 0 lvl0W2 rfl⟩

lemma similarTo_props {f i : Image} (h : similarTo f i = true) :
    i.illumination_source = f.illumination_source ∧
    i.objective = f.objective ∧
    i.dimensions.length = f.dimensions.length := by
  simp only [similarTo, Bool.and_eq_true, decide_eq_true_eq] at h
  exact ⟨h.1.1, h.1.2, h.2⟩

lemma mainImages_two_not_legacy (c : Collection) (f g : Image) (rest2 : List Image)
    (hflt : mainImages c = f :: g :: rest2) :
    should_use_legacy_quickhash c = false := by
  cases hleg : should_use_legacy_quickhash c
  · rfl
  · exfalso
    obtain ⟨hall, hone, _⟩ :=
      (legacyLoop_true_iff c.images 0 0).mp hleg
    have hsub : (c.images.filter isMainImage).Sublist
        (c.images.filter (fun i => ! i.isMacroImage)) := by
      refine List.monotone_filter_right _ ?_
      intro i hi
      simp only [isMainImage, Bool.and_eq_true] at hi
      exact hi.1
    have hlen : (c.images.filter isMainImage).length ≤
        (c.images.filter (fun i => ! i.isMacroImage)).length := hsub.length_le
    rw [mainImages] at hflt
    rw [hflt] at hlen
    simp only [List.length_cons] at hlen
    omega

lemma mainLoop_some_dissimilar (tiff : TiffOracle) (legacy : Bool) (f : Image) :
    ∀ (imgs : List Image) (ls : List SynthLevel) (q : Int) (g : Image),
    imgs.find? isMainImage = some g → similarTo f g = false →
    mainLoop tiff legacy imgs (some f) ls q = .error .dissimilarMainImages := by
  intro imgs
  induction imgs with
  | nil =>
    intro ls q g hg _
    cases hg
  | cons i rest ih =>
    intro ls q g hg hsim
    by_cases hm : isMainImage i = true
    · rw [List.find?_cons_of_pos _ hm] at hg
      injection hg with hg
      subst hg
      rw [mainLoop, if_pos hm, if_pos (by simp [hsim])]
    · rw [List.find?_cons_of_neg _ (by simpa using hm)] at hg
      rw [mainLoop, if_neg hm]
      exact ih ls q g hg hsim

lemma mainLoop_none_dissimilar (f g : Image) (rest2 : List Image) :
    ∀ (imgs : List Image) (q : Int),
    imgs.filter isMainImage = f :: g :: rest2 → similarTo f g = false →
    mainLoop allOkTiff false imgs none [] q = .error .dissimilarMainImages := by
  intro imgs
  induction imgs with
  | nil =>
    intro q hflt _
    cases hflt
  | cons i rest ih =>
    intro q hflt hsim
    by_cases hm : isMainImage i = true
    · rw [List.filter_cons, if_pos hm] at hflt
      injection hflt with hif hrest
      subst hif
      obtain ⟨ls1, hls1⟩ := processFirstDims_allOk_ex i i.dimensions
      rw [mainLoop, if_pos hm, hls1]
      have hfindrest : rest.find? isMainImage = some g := by
        rw [find?_eq_head_of_filter, hrest, List.head?_cons]
      exact mainLoop_some_dissimilar allOkTiff false i rest ([] ++ ls1) q g hfindrest hsim
    · rw [List.filter_cons, if_neg hm] at hflt
      rw [mainLoop, if_neg hm]
      exact ih q hflt hsim

/-- C5: on success all retained main images agree with the first main
image on illumination source, objective and dimension count; and when
the second surviving main image disagrees on any of the three, synthesis
(with all collaborator calls succeeding) fails with the BadData error
`dissimilarMainImages`. -/
theorem C5_dissimilar_main_images (tiff : TiffOracle) (c : Collection) :
    (∀ out, create_levels_from_collection tiff c = .ok out →
      ∀ f, firstMainImage c = some f →
        ∀ i ∈ mainImages c,
          i.illumination_source = f.illumination_source ∧
          i.objective = f.objective ∧
          i.dimensions.length = f.dimensions.length) ∧
    (∀ f g rest2, mainImages c = f :: g :: rest2 →
      similarTo f g = false →
      create_levels_from_collection allOkTiff c = .error .dissimilarMainImages) := by
  constructor
  · rintro ⟨levels, q⟩ hok f hf i hi
    obtain ⟨f2, ls, qm, hfind, hml, hpm, hq, hlv⟩ :=
      create_levels_ok_inv tiff c levels q hok
    have hff : f2 = f := by
      rw [firstMainImage] at hf
      rw [hf] at hfind
      injection hfind with he
      exact he.symm
    subst hff
    obtain ⟨hnone, hsome⟩ := mainLoop_none_ok tiff _ c.images _ _ _ _ hml
    have m4 := (hsome f2 hfind).2.2.2.1
    obtain ⟨hic, him⟩ := List.mem_filter.mp hi
    exact similarTo_props (m4 i hic him)
  · intro f g rest2 hflt hsim
    have hleg : should_use_legacy_quickhash c = false :=
      mainImages_two_not_legacy c f g rest2 hflt
    rw [mainImages] at hflt
    have hmld : mainLoop allOkTiff (should_use_legacy_quickhash c) c.images none [] (-1) =
        .error .dissimilarMainImages := by
      rw [hleg]
      exact mainLoop_none_dissimilar f g rest2 c.images (-1) hflt hsim
    rw [create_levels_from_collection, hmld]

/-- Witness for C5: `cW5` has two surviving main images with different
objective strings, and synthesis fails with `dissimilarMainImages`. -/
theorem C5_dissimilar_witness :
    mainImages cW5 = [imgW5a, imgW5b] ∧
    similarTo imgW5a imgW5b = false ∧
    create_levels_from_collection allOkTiff cW5 = .error .dissimilarMainImages := by
  have h1 : mainImages cW5 = [imgW5a, imgW5b] := by
    norm_num [mainImages, cW5, imgW5a, imgW5b, isMainImage, LEICA_VALUE_BRIGHTFIELD]
  have h2 : similarTo imgW5a imgW5b = false := by
    norm_num [similarTo, imgW5a, imgW5b, Z_PLANE_ZERO]
    intro hcon
    cases hcon
  exact ⟨h1, h2, (C5_dissimilar_main_images allOkTiff cW5).2 imgW5a imgW5b [] h1 h2⟩

/-- Counterexample to C6 as stated: synthesis succeeds on `cC6` although
an area's x offset (150) is not below the collection's `clicks_across`
(100); the code never checks offsets against the canvas bounds. -/
theorem C6_offset_bounds_counterexample :
    ∃ lvls q, create_levels_from_collection allOkTiff cC6 = .ok (lvls, q) ∧
      ∃ l ∈ lvls, ∃ a ∈ l.areas,
        ¬ (a.clicks_offset_x < cC6.clicks_across) := by
  refine ⟨[lvlC6], 7, ?_, lvlC6, List.mem_singleton.mpr rfl,
    { dir := 7, clicks_offset_x := 150, clicks_offset_y := 20 },
    List.mem_singleton.mpr rfl, by norm_num [lvlC6, cC6]⟩
  norm_num [create_levels_from_collection, mainLoop, processFirstDims, areaChecks,
    allOkTiff, processMacroImages, should_use_legacy_quickhash, legacyLoop,
    isMainImage, isBrightfieldMacroImage, similarTo, finalizeLevel, ceilq, cC6,
    imgC6, lvlC6, LEICA_VALUE_BRIGHTFIELD]

/-- C6 (amended): each area's click offsets are copied verbatim from its
source image's parsed view offsets, so whenever every image's offsets lie
within the collection canvas, so do those of every area of every level
of a successful synthesis. -/
theorem C6_area_offsets_amended (tiff : TiffOracle) (c : Collection)
    (levels : List FinalLevel) (q : Int)
    (h : create_levels_from_collection tiff c = .ok (levels, q))
    (hin : ∀ i ∈ c.images,
      0 ≤ i.clicks_offset_x ∧ i.clicks_offset_x < c.clicks_across ∧
      0 ≤ i.clicks_offset_y ∧ i.clicks_offset_y < c.clicks_down) :
    ∀ l ∈ levels, ∀ a ∈ l.areas,
      0 ≤ a.clicks_offset_x ∧ a.clicks_offset_x < c.clicks_across ∧
      0 ≤ a.clicks_offset_y ∧ a.clicks_offset_y < c.clicks_down := by
  obtain ⟨f, ls, qm, hfind, hml, hpm, hq, hlv⟩ := create_levels_ok_inv tiff c levels q h
  obtain ⟨hnone, hsome⟩ := mainLoop_none_ok tiff _ c.images _ _ _ _ hml
  have m7 := (hsome f hfind).2.2.2.2.2.2
  subst hlv
  intro l hl a ha
  obtain ⟨sl, hsl, rfl⟩ := List.mem_map.mp hl
  have ha2 : a ∈ sl.areas := ha
  obtain ⟨i, hi, _, hax, hay⟩ := m7 sl hsl a ha2
  obtain ⟨h1, h2, h3, h4⟩ := hin i hi
  rw [hax, hay]
  exact ⟨h1, h2, h3, h4⟩

/-- Witness for the amended C6: on `cW2` (image offsets 1,0 inside the
100 by 80 canvas) every synthesized area satisfies the bounds. -/
theorem C6_area_offsets_witness :
    (∀ i ∈ cW2.images,
      0 ≤ i.clicks_offset_x ∧ i.clicks_offset_x < cW2.clicks_across ∧
      0 ≤ i.clicks_offset_y ∧ i.clicks_offset_y < cW2.clicks_down) ∧
    (∀ l ∈ lvW2, ∀ a ∈ l.areas,
      0 ≤ a.clicks_offset_x ∧ a.clicks_offset_x < cW2.clicks_across ∧
      0 ≤ a.clicks_offset_y ∧ a.clicks_offset_y < cW2.clicks_down) := by
  have hev : create_levels_from_collection allOkTiff cW2 = .ok (lvW2, 2) := by
    norm_num [create_levels_from_collection, mainLoop, processFirstDims, areaChecks,
      allOkTiff, processMacroImages, should_use_legacy_quickhash, legacyLoop,
      isMainImage, isBrightfieldMacroImage, similarTo, finalizeLevel, ceilq, cW2,
      imgW2, lvW2, dimW2a, dimW2b, LEICA_VALUE_BRIGHTFIELD]
  have hin : ∀ i ∈ cW2.images,
      0 ≤ i.clicks_offset_x ∧ i.clicks_offset_x < cW2.clicks_across ∧
      0 ≤ i.clicks_offset_y ∧ i.clicks_offset_y < cW2.clicks_down := by
    norm_num [cW2, imgW2]
  exact ⟨hin, C6_area_offsets_amended allOkTiff cW2 lvW2 2 hev hin⟩



end Leica
